import Mathlib

/-!
Verification of the home-video-cleaner repository: a shallow embedding of
the scene segmentation algorithm (`custom_scene_detect.py`), the segment
materializer (`segment_extractor.py`) and the pipeline orchestrator
(`main.py`), with theorems settling the specification claims.

Times and durations are modelled as rationals (`ℚ`); Python floats carry
exact decimal literals at every point the claims touch, so rational
arithmetic is a faithful model of the comparisons involved.
-/

namespace HomeVideoCleaner

/-- A detected scene `{start, end}` (`custom_scene_detect.py`, lines 137-140).
The Python dict field `end` is a Lean keyword, so it is named `stop` here. -/
structure Scene where
  start : ℚ
  stop : ℚ
deriving DecidableEq, Repr

/-- The candidate walk of `detect_scenes` (`custom_scene_detect.py`,
lines 127-145): fold over the sorted spike times holding
`scene_start_time` (initially 0); a spike `≤ scene_start_time` is ignored;
a spike whose distance from `scene_start_time` is at least 2.0 s closes a
scene and advances `scene_start_time`; a closer spike is ignored without
advancing.  Returns the accepted scenes and the final `scene_start_time`. -/
def sceneWalk : ℚ → List ℚ → List Scene × ℚ
  | scene_start_time, [] => ([], scene_start_time)
  | scene_start_time, spike_time :: rest =>
    if spike_time ≤ scene_start_time then
      sceneWalk scene_start_time rest
    else if 2 ≤ spike_time - scene_start_time then
      let r := sceneWalk spike_time rest
      (⟨scene_start_time, spike_time⟩ :: r.1, r.2)
    else
      sceneWalk scene_start_time rest

/-- Function `detect_scenes` (`custom_scene_detect.py`, lines 122-178), restricted to
its pure segmentation core: the spike times are sorted (line 124, Python's
stable `sorted`, modelled by insertion sort over a total order, which agrees
with every sort on `ℚ`), walked (lines 127-145), the trailing scene
`[scene_start_time, video_duration)` is appended (lines 147-150), and the
result is sorted by `start` (line 177). -/
def detect_scenes (spike_times : List ℚ) (video_duration : ℚ) : List Scene :=
  let sorted_spikes := List.insertionSort (· ≤ ·) spike_times
  let w := sceneWalk 0 sorted_spikes
  List.insertionSort (fun a b => a.start ≤ b.start) (w.1 ++ [⟨w.2, video_duration⟩])

/-- Contiguous-chain predicate: `Chained a l b` says the scene list `l`
walks from time `a` to time `b`, each scene starting where told, strictly
increasing, and handing its `stop` to the next. -/
def Chained : ℚ → List Scene → ℚ → Prop
  | a, [], b => a = b
  | a, s :: rest, b => s.start = a ∧ a < s.stop ∧ Chained s.stop rest b

/-- The non-monotonic timestamp check of the frame loop
(`custom_scene_detect.py`, lines 82, 98-101): starting from
`last_time = -1.0`, each frame time strictly below its predecessor is
logged with a warning; `last_time` is updated on every frame.  The result
collects the warned timestamps in order. -/
def monotonicityWarnings : ℚ → List ℚ → List ℚ
  | _, [] => []
  | last_time, curr_time :: rest =>
    if curr_time < last_time then curr_time :: monotonicityWarnings curr_time rest
    else monotonicityWarnings curr_time rest

/-- The pre-materialization filter of `process_file` (`main.py`,
lines 120-124): keep only scenes whose duration is at least 0.25 s, as
`(start, end)` pairs.  The Python `isinstance` guards always hold in this
embedding because scene endpoints are rationals by construction. -/
def scene_ranges (scene_timestamps : List Scene) : List (ℚ × ℚ) :=
  (scene_timestamps.filter (fun s => 1/4 ≤ s.stop - s.start)).map
    (fun s => (s.start, s.stop))

/-- Python `f"{i:02d}"` for a natural number: zero-pad to width 2. -/
def fmt02 (i : ℕ) : String :=
  if i < 10 then ("0" ++ toString i) else toString i

/-- The extraction loop of `extract_segments` (`segment_extractor.py`,
lines 26-42), with the external `ffmpeg` run modelled by an exit-code
oracle indexed by the 1-based segment number: each segment produces
`{pre}_{i:02d}.mov`; a non-zero exit raises (modelled as `Except.error`),
dropping the paths accumulated so far and skipping the rest of the batch. -/
def extractLoop (pre : String) (exitCode : ℕ → ℤ) :
    ℕ → List (ℚ × ℚ) → Except String (List String)
  | _, [] => Except.ok []
  | i, (s, e) :: rest =>
    if exitCode i = 0 then
      match extractLoop pre exitCode (i + 1) rest with
      | Except.ok names => Except.ok ((pre ++ "_" ++ fmt02 i ++ ".mov") :: names)
      | Except.error msg => Except.error msg
    else
      Except.error ("ffmpeg failed to extract segment " ++ toString i ++ " (" ++
        toString s ++ "-" ++ toString e ++ ")")

/-- Function `extract_segments` (`segment_extractor.py`, lines 6-45): enumerate the
segments starting at 1 and extract each in turn. -/
def extract_segments (segments : List (ℚ × ℚ)) (pre : String)
    (exitCode : ℕ → ℤ) : Except String (List String) :=
  extractLoop pre exitCode 1 segments

/-- The durable stages of `process_file` (`main.py`), in program order. -/
inductive Stage where
  | copyIn               -- copy the input into the working directory (lines 46-83)
  | segmentation         -- detect_scenes + extract_segments (lines 105-131)
  | writeScenesExtracted -- status.txt := "scenes_extracted" (line 132)
  | rescanClips          -- glob the clips directory instead (line 134)
  | concatenation        -- concat each sub-folder (lines 144-148)
  | subfolderPlex        -- per-sub-folder Plex transcode (lines 149-218)
  | writeConcatenated    -- status.txt := "concatenated" (line 222)
  | finalsPlex           -- transcode */finals/*.mov (lines 277-330)
  | loosePlex            -- transcode loose clips/*.mov (lines 332-398)
  | writePlexDone        -- status.txt := "plex_done" (line 400)
  | archive              -- move/copy results back and verify (lines 410-494)
deriving DecidableEq, Repr

/-- The stage plan of `process_file` (`main.py`, lines 33-46, 105, 132-136,
400-410) as a function of the persisted status token read from
`status.txt` (`none` when the file does not exist): `"plex_done"` returns
immediately (line 37); the copy-in and segmentation blocks run exactly
when the token is not one of the three recognized resume tokens (lines 46,
105); the concatenation/transcode block — which contains the sub-folder,
finals and loose Plex transcodes and both later status writes — runs
exactly when the token is neither `"concatenated"` nor `"plex_done"`
(line 136); archival always runs afterwards. -/
def stagesRun (prior_status : Option String) : List Stage :=
  if prior_status = some ("plex_done") then []
  else
    (if prior_status = some ("scenes_extracted") ∨ prior_status = some ("concatenated")
      then [Stage.rescanClips]
      else [Stage.copyIn, Stage.segmentation, Stage.writeScenesExtracted]) ++
    (if prior_status = some ("concatenated") then []
      else [Stage.concatenation, Stage.subfolderPlex, Stage.writeConcatenated,
            Stage.finalsPlex, Stage.loosePlex, Stage.writePlexDone]) ++
    [Stage.archive]

/-- One attempt of a delivery (Plex) transcode, as observed by the code:
whether the external tool exited with status 0, and whether the output
file exists with non-zero size afterwards. -/
structure Attempt where
  exitOk : Bool
  outNonEmpty : Bool
deriving DecidableEq, Repr

/-- The dual validation the spec requires of every transcode attempt:
external-tool exit status and output existence with non-zero size. -/
def validAttempt (a : Attempt) : Bool :=
  a.exitOk && a.outNonEmpty

/-- The bounded retry loop used for sub-folder transcodes (`main.py`,
lines 199-218) and loose-clip transcodes (lines 356-398): while
`retry_count < max_retries` and not successful, run one attempt; the
attempt succeeds iff the tool exits 0 and the output exists non-empty,
otherwise `retry_count` is incremented.  Attempts are drawn from the
oracle at index `retry_count`.  Returns `(success, attempts made)`;
the fuel argument is `max_retries - retry_count`. -/
def retryTranscode (att : ℕ → Attempt) : ℕ → ℕ → Bool × ℕ
  | retry_count, 0 => (false, retry_count)
  | retry_count, fuel + 1 =>
    if validAttempt (att retry_count) then (true, retry_count + 1)
    else retryTranscode att (retry_count + 1) fuel

/-- The single-shot finals transcode (`main.py`, lines 277-330): one
`ffmpeg` invocation, success logged iff the process exits 0; the output
file is never checked and nothing is retried or raised. -/
def finalsTranscodeSuccess (a : Attempt) : Bool :=
  a.exitOk

/-- The loose-clip transcode loop over all `clips/*.mov` files (`main.py`,
lines 332-398): each unit runs the bounded retry loop; exhausting the
retries raises out of the `for` loop (lines 390, 398), so the remaining
units are never attempted.  Returns the per-unit processed flags (in
order) and whether the loop completed without raising. -/
def looseStage : List (ℕ → Attempt) → List Bool × Bool
  | [] => ([], true)
  | u :: rest =>
    if (retryTranscode u 0 3).1 then
      let r := looseStage rest
      (true :: r.1, r.2)
    else
      (true :: rest.map (fun _ => false), false)

/-- Observable outcome of the concatenation-and-transcode block
(`main.py`, lines 136-400). -/
structure BlockOutcome where
  subfolderErrors : List Bool     -- per sub-folder: terminal transcode error logged
  statusAfterSubfolders : String  -- status written at line 222
  looseProcessed : List Bool      -- per loose clip: was its transcode attempted
  finalStatus : Option String     -- status written at line 400, if reached
deriving DecidableEq, Repr

/-- The concatenation-and-transcode block (`main.py`, lines 136-400):
every sub-folder is processed inside its own `try`/`except` (lines
147-220), so a unit that exhausts its 3 attempts only logs a terminal
error and the loop continues; `status.txt := "concatenated"` is then
written unconditionally (line 222); the loose-clip loop follows, and
`status.txt := "plex_done"` (line 400) is reached only if no loose clip
exhausted its retries. -/
def concatBlock (subfolders looseClips : List (ℕ → Attempt)) : BlockOutcome :=
  let r := looseStage looseClips
  { subfolderErrors := subfolders.map (fun u => !(retryTranscode u 0 3).1)
    statusAfterSubfolders := "concatenated"
    looseProcessed := r.1
    finalStatus := if r.2 then some ("plex_done") else none }

/-- A transcode unit whose every attempt fails outright. -/
def failAttempts : ℕ → Attempt := fun _ => ⟨false, false⟩

/-- A transcode unit whose every attempt exits 0 with non-empty output. -/
def okAttempts : ℕ → Attempt := fun _ => ⟨true, true⟩

/-- Classification of a media file inside the working directory by the
patterns of `copy_with_progress` (`main.py`, lines 441-455). -/
inductive FileKind where
  | looseMov   -- clips/*.mov
  | looseMp4   -- clips/*.mp4
  | finalsMov  -- clips/*/finals/*.mov
  | finalsMp4  -- clips/*/finals/*.mp4
  | other      -- anything else (skipped by the suffix/pattern filters)
deriving DecidableEq, Repr

/-- A file of the working directory: its pattern class, its stem (shared
between a `.mov` and the `.mp4` rendered from it by `with_suffix`), and
its size in bytes. -/
structure WorkFile where
  kind : FileKind
  stem : String
  size : ℕ
deriving DecidableEq, Repr

/-- Files queued into the archival group (`main.py`, lines 443-445 and
450-452). -/
def isArchiveKind : FileKind → Bool
  | FileKind.looseMov => true
  | FileKind.finalsMov => true
  | _ => false

/-- Files queued into the delivery (Plex) group (`main.py`, lines 446-448
and 453-455). -/
def isPlexKind : FileKind → Bool
  | FileKind.looseMp4 => true
  | FileKind.finalsMp4 => true
  | _ => false

/-- The copy queue of `copy_with_progress` (`main.py`, line 459):
archive files then Plex files. -/
def copyQueue (files : List WorkFile) : List WorkFile :=
  files.filter (fun f => isArchiveKind f.kind) ++
    files.filter (fun f => isPlexKind f.kind)

/-- Function `copy_with_progress` returns `True` iff it queued at least one file
(`main.py`, lines 462-463, 470). -/
def copiedFlag (files : List WorkFile) : Bool :=
  !(copyQueue files).isEmpty

/-- The post-copy verification (`main.py`, lines 474-478): glob the
copied `Plex/*.mp4` files and fail if any has zero size.  A glob result
always exists, so only the files actually present are checked. -/
def plexVerified (files : List WorkFile) : Bool :=
  (files.filter (fun f => isPlexKind f.kind)).all (fun f => 0 < f.size)

/-- Whether the scratch working directory is deleted (`main.py`,
lines 480-494): cleanup runs iff the copy succeeded and the verification
passed; otherwise an error is logged and the function returns with the
scratch tree intact. -/
def cleanupRuns (files : List WorkFile) : Bool :=
  copiedFlag files && plexVerified files

/-- Modelled from the spec: "verify every expected delivery output exists
and is non-empty" — for every archival master queued for copy-back, a
delivery render with the same stem exists with non-zero size.  This is the
spec's verification predicate, stated for comparison with `plexVerified`;
it does not appear in the code. -/
def allDeliveryOutputsPresent (files : List WorkFile) : Bool :=
  (files.filter (fun f => isArchiveKind f.kind)).all (fun f =>
    files.any (fun g => isPlexKind g.kind && g.stem == f.stem && 0 < g.size))

theorem sceneWalk_chained : ∀ (l : List ℚ) (a : ℚ),
    Chained a (sceneWalk a l).1 (sceneWalk a l).2 := by
  intro l
  induction l with
  | nil => intro a; simp [sceneWalk, Chained]
  | cons t rest ih =>
    intro a
    by_cases h1 : t ≤ a
    · simpa [sceneWalk, h1] using ih a
    · by_cases h2 : 2 ≤ t - a
      · simp only [sceneWalk, if_neg h1, if_pos h2]
        exact ⟨rfl, by linarith, ih t⟩
      · simpa [sceneWalk, h1, h2] using ih a

theorem Chained.le : ∀ {l : List Scene} {a b : ℚ}, Chained a l b → a ≤ b := by
  intro l
  induction l with
  | nil => intro a b h; exact le_of_eq h
  | cons s rest ih =>
    intro a b h
    obtain ⟨-, hlt, hrest⟩ := h
    exact le_trans (le_of_lt hlt) (ih hrest)

theorem Chained.mem_bounds : ∀ {l : List Scene} {a b : ℚ}, Chained a l b →
    ∀ s ∈ l, a ≤ s.start ∧ s.start < s.stop ∧ s.stop ≤ b := by
  intro l
  induction l with
  | nil => intro a b _ s hs; cases hs
  | cons x rest ih =>
    intro a b h s hs
    obtain ⟨hstart, hlt, hrest⟩ := h
    rcases List.mem_cons.mp hs with h' | h'
    · subst h'
      exact ⟨le_of_eq hstart.symm, hstart ▸ hlt, hrest.le⟩
    · obtain ⟨u1, u2, u3⟩ := ih hrest s h'
      exact ⟨le_trans (le_of_lt hlt) u1, u2, u3⟩

theorem Chained.snoc : ∀ {l : List Scene} {a b d : ℚ}, Chained a l b → b < d →
    Chained a (l ++ [⟨b, d⟩]) d := by
  intro l
  induction l with
  | nil =>
    intro a b d h hbd
    cases h
    exact ⟨rfl, hbd, rfl⟩
  | cons x rest ih =>
    intro a b d h hbd
    obtain ⟨hstart, hlt, hrest⟩ := h
    exact ⟨hstart, hlt, ih hrest hbd⟩

theorem Chained.sorted_start : ∀ {l : List Scene} {a b : ℚ}, Chained a l b →
    l.Sorted (fun s s' => s.start ≤ s'.start) := by
  intro l
  induction l with
  | nil => intro a b _; exact List.sorted_nil
  | cons x rest ih =>
    intro a b h
    obtain ⟨hstart, hlt, hrest⟩ := h
    refine List.sorted_cons.mpr ⟨?_, ih hrest⟩
    intro s hs
    have := (hrest.mem_bounds s hs).1
    calc x.start = a := hstart
    _ ≤ x.stop := le_of_lt (hstart ▸ hlt)
    _ ≤ s.start := this

theorem Chained.chain_contiguous : ∀ {l : List Scene} {a b : ℚ}, Chained a l b →
    l.Chain' (fun s s' => s.stop = s'.start) := by
  intro l
  induction l with
  | nil => intro a b _; exact List.chain'_nil
  | cons x rest ih =>
    intro a b h
    obtain ⟨hstart, hlt, hrest⟩ := h
    refine List.chain'_cons'.mpr ⟨?_, ih hrest⟩
    intro y hy
    cases rest with
    | nil => cases hy
    | cons z zs =>
      cases hy
      exact hrest.1.symm

theorem Chained.getLast_stop : ∀ {l : List Scene} {a b : ℚ} (_ : Chained a l b)
    (hne : l ≠ []), (l.getLast hne).stop = b := by
  intro l
  induction l with
  | nil => intro a b _ hne; exact absurd rfl hne
  | cons x rest ih =>
    intro a b h hne
    obtain ⟨hstart, hlt, hrest⟩ := h
    cases rest with
    | nil => cases hrest; rfl
    | cons z zs => simpa [List.getLast] using ih hrest (by simp)

theorem sceneWalk_fin_cases : ∀ (l : List ℚ) (a : ℚ),
    (sceneWalk a l).2 = a ∨ (sceneWalk a l).2 ∈ l := by
  intro l
  induction l with
  | nil => intro a; left; rfl
  | cons t rest ih =>
    intro a
    by_cases h1 : t ≤ a
    · simp only [sceneWalk, if_pos h1]
      rcases ih a with h | h
      · left; exact h
      · right; exact List.mem_cons_of_mem _ h
    · by_cases h2 : 2 ≤ t - a
      · simp only [sceneWalk, if_neg h1, if_pos h2]
        rcases ih t with h | h
        · right; rw [h]; exact List.mem_cons_self _ _
        · right; exact List.mem_cons_of_mem _ h
      · simp only [sceneWalk, if_neg h1, if_neg h2]
        rcases ih a with h | h
        · left; exact h
        · right; exact List.mem_cons_of_mem _ h

/-- The chain of the raw (pre-final-sort) output of `detect_scenes`. -/
theorem detect_scenes_raw_chained (spike_times : List ℚ) (video_duration : ℚ)
    (hd : 0 < video_duration)
    (hlt : ∀ t ∈ spike_times, t < video_duration) :
    Chained 0
      ((sceneWalk 0 (List.insertionSort (· ≤ ·) spike_times)).1 ++
        [⟨(sceneWalk 0 (List.insertionSort (· ≤ ·) spike_times)).2, video_duration⟩])
      video_duration := by
  set ss := List.insertionSort (· ≤ ·) spike_times with hss
  have hchain := sceneWalk_chained ss 0
  have hfin : (sceneWalk 0 ss).2 < video_duration := by
    rcases sceneWalk_fin_cases ss 0 with h | h
    · rw [h]; exact hd
    · exact hlt _ ((List.perm_insertionSort (· ≤ ·) spike_times).mem_iff.mp h)
  exact hchain.snoc hfin

/-- The final sort by `start` (line 177) is the identity: the raw output is
already sorted by `start`. -/
theorem detect_scenes_eq_raw (spike_times : List ℚ) (video_duration : ℚ) :
    detect_scenes spike_times video_duration =
      (sceneWalk 0 (List.insertionSort (· ≤ ·) spike_times)).1 ++
        [⟨(sceneWalk 0 (List.insertionSort (· ≤ ·) spike_times)).2, video_duration⟩] := by
  unfold detect_scenes
  set ss := List.insertionSort (· ≤ ·) spike_times with hss
  have hchain := sceneWalk_chained ss 0
  refine List.Sorted.insertionSort_eq ?_
  rw [List.Sorted, List.pairwise_append]
  refine ⟨hchain.sorted_start, List.pairwise_singleton _ _, ?_⟩
  intro s hs y hy
  rcases List.mem_singleton.mp hy with rfl
  have := hchain.mem_bounds s hs
  calc s.start ≤ s.stop := le_of_lt this.2.1
  _ ≤ (sceneWalk 0 ss).2 := this.2.2

theorem Chained.head_start : ∀ {l : List Scene} {a b : ℚ}, Chained a l b →
    ∀ s₀, l.head? = some s₀ → s₀.start = a := by
  intro l
  induction l with
  | nil => intro a b _ s₀ h; cases h
  | cons x rest _ =>
    intro a b h s₀ hh
    obtain ⟨hstart, -, -⟩ := h
    cases hh
    exact hstart

/-- The left fold of a scene-walk step over a list equals `sceneWalk`,
started from an arbitrary accumulator. -/
theorem foldl_step_eq_sceneWalk : ∀ (l : List ℚ) (acc : List Scene × ℚ),
    List.foldl
      (fun acc t =>
        if t ≤ acc.2 then acc
        else if 2 ≤ t - acc.2 then (acc.1 ++ [(⟨acc.2, t⟩ : Scene)], t) else acc)
      acc l
      = (acc.1 ++ (sceneWalk acc.2 l).1, (sceneWalk acc.2 l).2) := by
  intro l
  induction l with
  | nil => intro acc; simp [sceneWalk]
  | cons t rest ih =>
    intro acc
    by_cases h1 : t ≤ acc.2
    · simp only [List.foldl_cons, if_pos h1, sceneWalk]
      exact ih acc
    · by_cases h2 : 2 ≤ t - acc.2
      · simp only [List.foldl_cons, if_neg h1, if_pos h2, sceneWalk]
        rw [ih (acc.1 ++ [(⟨acc.2, t⟩ : Scene)], t)]
        simp
      · simp only [List.foldl_cons, if_neg h1, if_neg h2, sceneWalk]
        exact ih acc

/-- C1: `detect_scenes` folds the sorted candidates left-to-right from
`segmentStart = 0`: a candidate `t ≤ segmentStart` is discarded outright;
a candidate with `t - segmentStart ≥ 2.0` closes `[segmentStart, t)` and
advances `segmentStart` to `t`; a closer candidate is discarded without
advancing; the trailing segment `[segmentStart, duration)` is appended.
In particular candidates 1.0 s and 1.5 s with duration 10 s yield the
single segment `[0,10)`, and candidates 3.0 s and 7.0 s yield `[0,3)`,
`[3,7)`, `[7,10)`. -/
theorem C1_detect_scenes_folds_sorted_candidates :
    (∀ (spike_times : List ℚ) (video_duration : ℚ),
      detect_scenes spike_times video_duration =
        (fun r : List Scene × ℚ => r.1 ++ [⟨r.2, video_duration⟩])
          (List.foldl
            (fun acc t =>
              if t ≤ acc.2 then acc
              else if 2 ≤ t - acc.2 then (acc.1 ++ [(⟨acc.2, t⟩ : Scene)], t)
              else acc)
            ([], 0) (List.insertionSort (· ≤ ·) spike_times))) ∧
    detect_scenes [1, 3/2] 10 = [⟨0, 10⟩] ∧
    detect_scenes [3, 7] 10 = [⟨0, 3⟩, ⟨3, 7⟩, ⟨7, 10⟩] := by
  refine ⟨?_, ?_, ?_⟩
  · intro spike_times video_duration
    rw [detect_scenes_eq_raw, foldl_step_eq_sceneWalk]
    simp
  · norm_num [detect_scenes, sceneWalk, List.insertionSort, List.orderedInsert]
  · norm_num [detect_scenes, sceneWalk, List.insertionSort, List.orderedInsert]

/-- C2 (amended): for every duration `d > 0` and every candidate list all
of whose elements are below `d` — in any order, with duplicates — the
output of `detect_scenes` is non-empty, ordered by start, every segment
has `start < end`, consecutive segments are contiguous, the first start is
0 and the last end is `d`; the trailing segment is always emitted, and
zero candidates give the single segment `[0, d)`.  (The candidate bound is
needed: see the counterexample.) -/
theorem C2_detect_scenes_coverage (spike_times : List ℚ) (d : ℚ)
    (hd : 0 < d) (hlt : ∀ t ∈ spike_times, t < d) :
    detect_scenes spike_times d ≠ [] ∧
    (∀ s ∈ detect_scenes spike_times d, s.start < s.stop) ∧
    (detect_scenes spike_times d).Chain' (fun s s' => s.stop = s'.start) ∧
    (detect_scenes spike_times d).Sorted (fun s s' => s.start ≤ s'.start) ∧
    (∀ s₀, (detect_scenes spike_times d).head? = some s₀ → s₀.start = 0) ∧
    (∀ sₙ, (detect_scenes spike_times d).getLast? = some sₙ → sₙ.stop = d) ∧
    (spike_times = [] → detect_scenes spike_times d = [⟨0, d⟩]) := by
  have hch := detect_scenes_raw_chained spike_times d hd hlt
  rw [← detect_scenes_eq_raw] at hch
  have hne : detect_scenes spike_times d ≠ [] := by
    rw [detect_scenes_eq_raw]
    simp
  refine ⟨hne, ?_, hch.chain_contiguous, hch.sorted_start, ?_, ?_, ?_⟩
  · intro s hs
    exact (hch.mem_bounds s hs).2.1
  · intro s₀ h₀
    exact hch.head_start s₀ h₀
  · intro sₙ hₙ
    have := List.getLast?_eq_getLast _ hne
    rw [this] at hₙ
    have := hch.getLast_stop hne
    rw [← Option.some_inj.mp hₙ]
    exact this
  · intro hempty
    subst hempty
    norm_num [detect_scenes, sceneWalk, List.insertionSort]

/-- Witness for C2 at candidates `[3]`, duration 10. -/
theorem C2_detect_scenes_coverage_witness :
    ((0 : ℚ) < 10 ∧ ∀ t ∈ ([3] : List ℚ), t < 10) ∧
    (detect_scenes [3] 10 ≠ [] ∧
      (∀ s ∈ detect_scenes [3] 10, s.start < s.stop) ∧
      (detect_scenes [3] 10).Chain' (fun s s' => s.stop = s'.start) ∧
      (detect_scenes [3] 10).Sorted (fun s s' => s.start ≤ s'.start) ∧
      (∀ s₀, (detect_scenes [3] 10).head? = some s₀ → s₀.start = 0) ∧
      (∀ sₙ, (detect_scenes [3] 10).getLast? = some sₙ → sₙ.stop = 10) ∧
      (([3] : List ℚ) = [] → detect_scenes [3] 10 = [⟨0, 10⟩])) :=
  ⟨⟨by norm_num, by intro t ht; rw [List.mem_singleton.mp ht]; norm_num⟩,
    C2_detect_scenes_coverage [3] 10 (by norm_num)
      (by intro t ht; rw [List.mem_singleton.mp ht]; norm_num)⟩

/-- Counterexample for C2 as stated: with the candidate 15 and duration
10, `detect_scenes` returns `[0,15)`, `[15,10)` — the second segment has
`start ≥ end` and the union is not `[0, 10)`. -/
theorem C2_detect_scenes_coverage_counterexample :
    detect_scenes [15] 10 = [⟨0, 15⟩, ⟨15, 10⟩] ∧ ¬ ((15 : ℚ) < 10) := by
  constructor
  · norm_num [detect_scenes, sceneWalk, List.insertionSort, List.orderedInsert]
  · norm_num

/-- C9: `detect_scenes` sorts the candidates before the walk, so the
output is invariant under any reordering of the candidates (and, being a
pure function of candidates and duration, identical across repeated
runs); the frame loop's monotonicity check logs a warning at exactly the
frame times that are strictly below their predecessor (starting from
`last_time = -1.0`), equivalently no warning is logged iff the timestamp
stream is non-decreasing. -/
theorem C9_sorted_candidates_idempotent :
    (∀ (s₁ s₂ : List ℚ) (d : ℚ), s₁.Perm s₂ →
      detect_scenes s₁ d = detect_scenes s₂ d) ∧
    (∀ (last : ℚ) (times : List ℚ),
      monotonicityWarnings last times =
        (times.zip (last :: times)).filterMap
          (fun p => if p.1 < p.2 then some p.1 else none)) ∧
    (∀ (last : ℚ) (times : List ℚ),
      monotonicityWarnings last times = [] ↔ List.Chain (· ≤ ·) last times) := by
  refine ⟨?_, ?_, ?_⟩
  · intro s₁ s₂ d hperm
    have hsorts : List.insertionSort (· ≤ ·) s₁ = List.insertionSort (· ≤ ·) s₂ :=
      List.eq_of_perm_of_sorted
        ((List.perm_insertionSort _ s₁).trans
          (hperm.trans (List.perm_insertionSort _ s₂).symm))
        (List.sorted_insertionSort _ s₁) (List.sorted_insertionSort _ s₂)
    rw [detect_scenes, detect_scenes, hsorts]
  · intro last times
    induction times generalizing last with
    | nil => simp [monotonicityWarnings]
    | cons t rest ih =>
      by_cases h : t < last
      · simp [monotonicityWarnings, h, ih t]
      · simp [monotonicityWarnings, h, ih t]
  · intro last times
    induction times generalizing last with
    | nil => simp [monotonicityWarnings]
    | cons t rest ih =>
      by_cases h : t < last
      · simp only [monotonicityWarnings, if_pos h, List.chain_cons]
        constructor
        · intro hfalse; cases hfalse
        · intro hc
          exact absurd h (not_lt.mpr hc.1)
      · simp only [monotonicityWarnings, if_neg h, List.chain_cons]
        rw [ih t]
        simp [not_lt.mp h]

/-- Witness for C9 at the permuted candidate lists `[2, 1]` and `[1, 2]`. -/
theorem C9_sorted_candidates_idempotent_witness :
    ([2, 1] : List ℚ).Perm [1, 2] ∧
    detect_scenes [2, 1] 10 = detect_scenes [1, 2] 10 :=
  ⟨List.Perm.swap 1 2 [],
    C9_sorted_candidates_idempotent.1 [2, 1] [1, 2] 10 (List.Perm.swap 1 2 [])⟩

/-- C10: before materialization, `process_file` keeps exactly the detected
scenes of duration at least 0.25 s; shorter scenes — including the
always-emitted trailing segment — are silently dropped, so the
materialized ranges need not cover `[0, duration)`: with the candidate 3
and duration 3.1 the detected segments are `[0,3)`, `[3,3.1)` but only
`(0, 3)` is extracted. -/
theorem C10_short_scene_filter :
    (∀ (scenes : List Scene) (s : Scene), s ∈ scenes → s.stop - s.start < 1/4 →
      (s.start, s.stop) ∉ scene_ranges scenes) ∧
    (∀ (scenes : List Scene) (p : ℚ × ℚ), p ∈ scene_ranges scenes →
      ∃ s ∈ scenes, p = (s.start, s.stop) ∧ 1/4 ≤ s.stop - s.start) ∧
    detect_scenes [3] (31/10) = [⟨0, 3⟩, ⟨3, 31/10⟩] ∧
    scene_ranges [⟨0, 3⟩, ⟨3, 31/10⟩] = [(0, 3)] := by
  refine ⟨?_, ?_, ?_, ?_⟩
  · intro scenes s _ hshort hmem
    rw [scene_ranges] at hmem
    simp only [List.mem_map, List.mem_filter, decide_eq_true_eq] at hmem
    obtain ⟨s', ⟨-, hlen⟩, heq⟩ := hmem
    have h1 : s'.start = s.start := congrArg Prod.fst heq
    have h2 : s'.stop = s.stop := congrArg Prod.snd heq
    rw [h1, h2] at hlen
    linarith
  · intro scenes p hmem
    rw [scene_ranges] at hmem
    simp only [List.mem_map, List.mem_filter, decide_eq_true_eq] at hmem
    obtain ⟨s', ⟨hm, hlen⟩, heq⟩ := hmem
    exact ⟨s', hm, heq.symm, hlen⟩
  · norm_num [detect_scenes, sceneWalk, List.insertionSort, List.orderedInsert]
  · norm_num [scene_ranges, List.filter]

/-- Witness for C10: the trailing segment `[3, 3.1)` is in the detected
list, is shorter than 0.25 s, and is excluded from the extracted ranges. -/
theorem C10_short_scene_filter_witness :
    ((⟨3, 31/10⟩ : Scene) ∈ [(⟨0, 3⟩ : Scene), ⟨3, 31/10⟩] ∧
      (31/10 : ℚ) - 3 < 1/4) ∧
    ((3 : ℚ), (31/10 : ℚ)) ∉ scene_ranges [⟨0, 3⟩, ⟨3, 31/10⟩] :=
  ⟨⟨by simp, by norm_num⟩,
    C10_short_scene_filter.1 [⟨0, 3⟩, ⟨3, 31/10⟩] ⟨3, 31/10⟩ (by simp)
      (by norm_num)⟩

theorem extractLoop_all_ok (pre : String) (ec : ℕ → ℤ) :
    ∀ (segs : List (ℚ × ℚ)) (k : ℕ),
      (∀ i, k ≤ i → i < k + segs.length → ec i = 0) →
      extractLoop pre ec k segs =
        Except.ok ((List.range segs.length).map
          (fun j => pre ++ "_" ++ fmt02 (k + j) ++ ".mov")) := by
  intro segs
  induction segs with
  | nil => intro k _; simp [extractLoop]
  | cons seg rest ih =>
    intro k h
    obtain ⟨s, e⟩ := seg
    have hk : ec k = 0 := h k le_rfl (by simp)
    have hrest := ih (k + 1) (fun i h1 h2 => h i (by omega) (by simp at h2 ⊢; omega))
    simp only [extractLoop, if_pos hk, hrest]
    simp only [List.length_cons, List.range_succ_eq_map, List.map_cons, List.map_map]
    congr 2
    symm
    apply List.map_congr_left
    intro j _
    simp only [Function.comp_apply, Nat.succ_eq_add_one]
    rw [← Nat.add_assoc k j 1, Nat.add_right_comm k 1 j]

theorem extractLoop_ok_exits (pre : String) (ec : ℕ → ℤ) :
    ∀ (segs : List (ℚ × ℚ)) (k : ℕ) (names : List String),
      extractLoop pre ec k segs = Except.ok names →
      ∀ j, j < segs.length → ec (k + j) = 0 := by
  intro segs
  induction segs with
  | nil => intro k names _ j hj; cases hj
  | cons seg rest ih =>
    intro k names hok j hj
    obtain ⟨s, e⟩ := seg
    by_cases hk : ec k = 0
    · cases j with
      | zero => simpa using hk
      | succ j' =>
        simp only [extractLoop, if_pos hk] at hok
        cases hr : extractLoop pre ec (k + 1) rest with
        | ok names' =>
          have := ih (k + 1) names' hr j' (by simp at hj; omega)
          simpa [Nat.add_assoc, Nat.add_comm 1 j'] using this
        | error msg => rw [hr] at hok; cases hok
    · simp only [extractLoop, if_neg hk] at hok
      cases hok

/-- C8: `extract_segments` returns one output path per segment, in the
segments' order, named `{prefix}_{i:02d}.mov` with `i` counting from 01;
the first non-zero exit status from the external extractor raises,
aborting the remaining batch with no retry, and no paths are returned for
the failed or subsequent segments (the whole call yields an error). -/
theorem C8_extract_segments_contract :
    (∀ (segs : List (ℚ × ℚ)) (pre : String) (ec : ℕ → ℤ),
      (∀ i, 1 ≤ i → i ≤ segs.length → ec i = 0) →
      extract_segments segs pre ec =
        Except.ok ((List.range segs.length).map
          (fun j => pre ++ "_" ++ fmt02 (1 + j) ++ ".mov"))) ∧
    (∀ (segs : List (ℚ × ℚ)) (pre : String) (ec : ℕ → ℤ) (j : ℕ),
      j < segs.length → ec (1 + j) ≠ 0 →
      ∃ msg, extract_segments segs pre ec = Except.error msg) := by
  constructor
  · intro segs pre ec h
    exact extractLoop_all_ok pre ec segs 1 (fun i h1 h2 => h i h1 (by omega))
  · intro segs pre ec j hj hij
    cases hr : extractLoop pre ec 1 segs with
    | ok names =>
      exact absurd (extractLoop_ok_exits pre ec segs 1 names hr j hj) hij
    | error msg => exact ⟨msg, hr⟩

/-- Witness for C8: two segments with an all-zero exit oracle produce the
two sequentially numbered paths; an oracle failing on the first segment
produces an error. -/
theorem C8_extract_segments_contract_witness :
    (∀ i, 1 ≤ i → i ≤ ([((0 : ℚ), (2 : ℚ)), (2, 5)] : List (ℚ × ℚ)).length →
      (fun _ => (0 : ℤ)) i = 0) ∧
    extract_segments [((0 : ℚ), (2 : ℚ)), (2, 5)] "clip_01_scene" (fun _ => 0) =
      Except.ok ["clip_01_scene_01.mov", "clip_01_scene_02.mov"] ∧
    (∃ msg, extract_segments [((0 : ℚ), (2 : ℚ)), (2, 5)] "clip_01_scene"
      (fun _ => 1) = Except.error msg) := by
  refine ⟨fun i _ _ => rfl, ?_, ?_⟩
  · have := C8_extract_segments_contract.1 [((0 : ℚ), (2 : ℚ)), (2, 5)]
      "clip_01_scene" (fun _ => 0) (fun i _ _ => rfl)
    rw [this]
    rfl
  · exact C8_extract_segments_contract.2 [((0 : ℚ), (2 : ℚ)), (2, 5)]
      "clip_01_scene" (fun _ => 1) 0 (by simp) (by norm_num)

theorem retryTranscode_attempts_le : ∀ (fuel rc : ℕ) (att : ℕ → Attempt),
    (retryTranscode att rc fuel).2 ≤ rc + fuel := by
  intro fuel
  induction fuel with
  | zero => intro rc att; simp [retryTranscode]
  | succ n ih =>
    intro rc att
    by_cases h : validAttempt (att rc) = true
    · simp only [retryTranscode, if_pos h]
      omega
    · simp only [retryTranscode, if_neg h]
      have := ih (rc + 1) att
      omega

theorem retryTranscode_success_iff : ∀ (fuel rc : ℕ) (att : ℕ → Attempt),
    (retryTranscode att rc fuel).1 = true ↔
      ∃ k, rc ≤ k ∧ k < rc + fuel ∧ validAttempt (att k) = true := by
  intro fuel
  induction fuel with
  | zero =>
    intro rc att
    constructor
    · intro h; cases h
    · rintro ⟨k, h1, h2, -⟩; omega
  | succ n ih =>
    intro rc att
    by_cases h : validAttempt (att rc) = true
    · simp only [retryTranscode, if_pos h]
      exact ⟨fun _ => ⟨rc, le_rfl, by omega, h⟩, fun _ => by trivial⟩
    · simp only [retryTranscode, if_neg h]
      rw [ih (rc + 1) att]
      constructor
      · rintro ⟨k, h1, h2, h3⟩
        exact ⟨k, by omega, by omega, h3⟩
      · rintro ⟨k, h1, h2, h3⟩
        refine ⟨k, ?_, by omega, h3⟩
        rcases Nat.eq_or_lt_of_le h1 with he | hlt
        · exfalso; rw [← he] at h3; exact h h3
        · omega

theorem looseStage_completed_iff : ∀ units : List (ℕ → Attempt),
    (looseStage units).2 = units.all (fun u => (retryTranscode u 0 3).1) := by
  intro units
  induction units with
  | nil => rfl
  | cons u rest ih =>
    by_cases h : (retryTranscode u 0 3).1 = true
    · simp [looseStage, h, ih]
    · simp [looseStage, h]

/-- C3 (the code at the failing input): with persisted status
`"scenes_extracted"` the run skips copy-in and segmentation, re-scans the
clips directory and proceeds through concatenation and all delivery
transcodes; but with persisted status `"concatenated"` the run skips the
entire block guarded at `main.py` line 136 — including the finals and
loose-clip delivery transcodes and the `plex_done` status write — and goes
straight to archival, contrary to the claim. -/
theorem C3_resume_stage_plan :
    stagesRun (some ("scenes_extracted")) =
      [Stage.rescanClips, Stage.concatenation, Stage.subfolderPlex,
        Stage.writeConcatenated, Stage.finalsPlex, Stage.loosePlex,
        Stage.writePlexDone, Stage.archive] ∧
    Stage.copyIn ∉ stagesRun (some ("scenes_extracted")) ∧
    Stage.segmentation ∉ stagesRun (some ("scenes_extracted")) ∧
    stagesRun (some ("concatenated")) = [Stage.rescanClips, Stage.archive] ∧
    Stage.finalsPlex ∉ stagesRun (some ("concatenated")) ∧
    Stage.loosePlex ∉ stagesRun (some ("concatenated")) ∧
    Stage.writePlexDone ∉ stagesRun (some ("concatenated")) := by
  decide

/-- C4 (amended): the sub-folder and loose-clip transcode loops make at
most 3 attempts and record success exactly when some attempt within the
first 3 passes the dual validation (exit status 0 and output existing
non-empty); the finals transcode makes a single attempt validated by exit
status alone. -/
theorem C4_transcode_retry_validation :
    (∀ att : ℕ → Attempt, (retryTranscode att 0 3).2 ≤ 3) ∧
    (∀ att : ℕ → Attempt, (retryTranscode att 0 3).1 = true ↔
      ∃ k, k < 3 ∧ validAttempt (att k) = true) ∧
    (∀ a : Attempt, validAttempt a = (a.exitOk && a.outNonEmpty)) ∧
    (∀ a : Attempt, finalsTranscodeSuccess a = a.exitOk) := by
  refine ⟨?_, ?_, fun a => rfl, fun a => rfl⟩
  · intro att
    simpa using retryTranscode_attempts_le 3 0 att
  · intro att
    rw [retryTranscode_success_iff 3 0 att]
    constructor
    · rintro ⟨k, -, h2, h3⟩; exact ⟨k, by omega, h3⟩
    · rintro ⟨k, h2, h3⟩; exact ⟨k, Nat.zero_le _, by omega, h3⟩

/-- Counterexample for C4 as stated: a finals transcode attempt whose
process exits 0 but whose output file is missing or empty is recorded as
successful, although it fails the claimed dual validation. -/
theorem C4_transcode_retry_validation_counterexample :
    finalsTranscodeSuccess ⟨true, false⟩ = true ∧
    validAttempt ⟨true, false⟩ = false := by
  decide

/-- C5 (amended): a sub-folder unit exhausting its 3 attempts only logs a
terminal error for that unit — every sub-folder gets a verdict and the
status still advances to `"concatenated"` (and to `"plex_done"` when all
loose clips succeed); a loose clip exhausting its 3 attempts raises:
`"plex_done"` is recorded iff every loose clip succeeds, and the loose
clips after the failing one are never processed. -/
theorem C5_retry_exhaustion_isolation (su lu : List (ℕ → Attempt))
    (u : ℕ → Attempt) (rest : List (ℕ → Attempt))
    (hfail : (retryTranscode u 0 3).1 = false) :
    (concatBlock su lu).subfolderErrors =
      su.map (fun v => !(retryTranscode v 0 3).1) ∧
    (concatBlock su lu).statusAfterSubfolders = "concatenated" ∧
    ((concatBlock su lu).finalStatus = some ("plex_done") ↔
      lu.all (fun v => (retryTranscode v 0 3).1) = true) ∧
    (concatBlock su (u :: rest)).looseProcessed =
      true :: rest.map (fun _ => false) ∧
    (concatBlock su (u :: rest)).finalStatus = none := by
  refine ⟨rfl, rfl, ?_, ?_, ?_⟩
  · rw [concatBlock]
    simp only
    rw [looseStage_completed_iff lu]
    by_cases h : lu.all (fun v => (retryTranscode v 0 3).1) = true
    · simp [h]
    · simp [h]
  · rw [concatBlock]
    simp [looseStage, hfail]
  · rw [concatBlock]
    simp [looseStage, hfail]

/-- Witness for C5 at one always-failing sub-folder, and loose clips
consisting of an always-failing unit followed by an always-succeeding
one. -/
theorem C5_retry_exhaustion_isolation_witness :
    (retryTranscode failAttempts 0 3).1 = false ∧
    ((concatBlock [failAttempts] []).subfolderErrors =
        [failAttempts].map (fun v => !(retryTranscode v 0 3).1) ∧
      (concatBlock [failAttempts] []).statusAfterSubfolders = "concatenated" ∧
      ((concatBlock [failAttempts] []).finalStatus = some ("plex_done") ↔
        ([] : List (ℕ → Attempt)).all
          (fun v => (retryTranscode v 0 3).1) = true) ∧
      (concatBlock [failAttempts] (failAttempts :: [okAttempts])).looseProcessed =
        true :: [okAttempts].map (fun _ => false) ∧
      (concatBlock [failAttempts] (failAttempts :: [okAttempts])).finalStatus =
        none) :=
  ⟨rfl, C5_retry_exhaustion_isolation [failAttempts] [] failAttempts
    [okAttempts] rfl⟩

/-- Counterexample for C5 as stated: an always-failing sub-folder still
lets the persisted state advance all the way to `"plex_done"`, and an
always-failing first loose clip leaves its sibling unprocessed. -/
theorem C5_retry_exhaustion_isolation_counterexample :
    (concatBlock [failAttempts] []).subfolderErrors = [true] ∧
    (concatBlock [failAttempts] []).finalStatus = some ("plex_done") ∧
    (concatBlock [] [failAttempts, okAttempts]).looseProcessed =
      [true, false] := by
  decide

/-- C6 (amended): the scratch tree is deleted iff at least one media file
was queued for copy-back and every delivery (Plex) file actually present
has non-zero size; an empty delivery output therefore blocks cleanup with
an error, but a wholly missing delivery output is not detected. -/
theorem C6_cleanup_verification_gate (files : List WorkFile) :
    cleanupRuns files = true ↔
      (copyQueue files ≠ [] ∧
        ∀ f ∈ files, isPlexKind f.kind = true → 0 < f.size) := by
  rw [cleanupRuns, Bool.and_eq_true]
  constructor
  · rintro ⟨h1, h2⟩
    constructor
    · intro hnil
      rw [copiedFlag, hnil] at h1
      simp at h1
    · intro f hf hk
      rw [plexVerified, List.all_eq_true] at h2
      have := h2 f (List.mem_filter.mpr ⟨hf, hk⟩)
      simpa using this
  · rintro ⟨h1, h2⟩
    constructor
    · rw [copiedFlag, Bool.not_eq_true']
      cases h : copyQueue files with
      | nil => exact absurd h h1
      | cons a l => rfl
    · rw [plexVerified, List.all_eq_true]
      intro f hf
      rw [List.mem_filter] at hf
      simpa using h2 f hf.1 hf.2

/-- Counterexample for C6 as stated: a working tree holding a single
loose archival clip whose delivery render is entirely missing still
passes the gate — cleanup runs although an expected delivery output is
absent. -/
theorem C6_cleanup_verification_gate_counterexample :
    cleanupRuns [⟨FileKind.looseMov, "a", 5⟩] = true ∧
    allDeliveryOutputsPresent [⟨FileKind.looseMov, "a", 5⟩] = false := by
  decide

/-- C7 (amended): a persisted status token that is none of the recognized
values is treated exactly like a fresh (NEW) run: the stage plan equals
that of a missing status file, re-copying the input and re-running
segmentation and materialization; no fatal condition is surfaced. -/
theorem C7_unrecognized_token_treated_as_new (s : String)
    (h1 : s ≠ "plex_done") (h2 : s ≠ "concatenated")
    (h3 : s ≠ "scenes_extracted") :
    stagesRun (some s) = stagesRun none ∧
    Stage.copyIn ∈ stagesRun (some s) ∧
    Stage.segmentation ∈ stagesRun (some s) := by
  refine ⟨?_, ?_, ?_⟩ <;> simp [stagesRun, h1, h2, h3]

/-- Witness for C7 at the unrecognized token `"garbage"`. -/
theorem C7_unrecognized_token_treated_as_new_witness :
    ("garbage" ≠ "plex_done" ∧ "garbage" ≠ "concatenated" ∧
      "garbage" ≠ "scenes_extracted") ∧
    (stagesRun (some ("garbage")) = stagesRun none ∧
      Stage.copyIn ∈ stagesRun (some ("garbage")) ∧
      Stage.segmentation ∈ stagesRun (some ("garbage"))) :=
  ⟨⟨by decide, by decide, by decide⟩,
    C7_unrecognized_token_treated_as_new ("garbage") (by decide) (by decide)
      (by decide)⟩

/-- Counterexample for C7 as stated: on the unrecognized token
`"garbage"`, `process_file` silently runs the same stage plan as a fresh
input — it re-copies the input and re-runs segmentation — instead of
surfacing a fatal condition. -/
theorem C7_unrecognized_token_counterexample :
    stagesRun (some ("garbage")) = stagesRun none ∧
    Stage.copyIn ∈ stagesRun (some ("garbage")) ∧
    Stage.segmentation ∈ stagesRun (some ("garbage")) := by
  decide

end HomeVideoCleaner
